import Mathlib

/-!
# Polyglot opening-book reader (`reader.hpp`)

A shallow embedding of `namespace Reader` and a verification of its byte-order
routines, move decoding, notation printing, loading and lookup.

Conventions of the embedding:

* `uint8_t`, `uint16_t`, `uint32_t`, `uint64_t` values are natural numbers; every
  place where C++ narrows or wraps a value carries an explicit `% 2 ^ w`.
* The globals `num_entries` and `entries` are the two fields of `Globals`; the
  member functions of `Book` take the globals as an argument (and return the new
  globals when they write them).
* Operations that can index outside an array or read storage that holds no
  record return `Option`; `none` stands for undefined behaviour.
-/

namespace Reader

/-! ## `class underlying`: byte-order routines (lines 14-37) -/

/-- Line 16: `return (x>>8) | (x<<8);` on `uint16_t`. The operand is promoted to
`int`, so `x<<8` is not truncated; the `return` narrows to 16 bits. -/
def endian_swap_u16 (x : Nat) : Nat :=
  ((x >>> 8) ||| (x <<< 8)) % 2 ^ 16

/-- Lines 20-25 on `uint32_t`: left shifts wrap at 32 bits. -/
def endian_swap_u32 (x : Nat) : Nat :=
  ((x >>> 24) |||
   (((x <<< 8) % 2 ^ 32) &&& 0x00FF0000) |||
   ((x >>> 8) &&& 0x0000FF00) |||
   ((x <<< 24) % 2 ^ 32)) % 2 ^ 32

/-- Lines 27-36 on `uint64_t`: left shifts wrap at 64 bits. -/
def endian_swap_u64 (x : Nat) : Nat :=
  ((x >>> 56) |||
   (((x <<< 40) % 2 ^ 64) &&& 0x00FF000000000000) |||
   (((x <<< 24) % 2 ^ 64) &&& 0x0000FF0000000000) |||
   (((x <<< 8) % 2 ^ 64) &&& 0x000000FF00000000) |||
   ((x >>> 8) &&& 0x00000000FF000000) |||
   ((x >>> 24) &&& 0x0000000000FF0000) |||
   ((x >>> 40) &&& 0x000000000000FF00) |||
   ((x <<< 56) % 2 ^ 64)) % 2 ^ 64

/-- Byte `i` of `x`, counting from the least significant byte. -/
def byteAt (x i : Nat) : Nat :=
  x / 256 ^ i % 256

/-! ## Records and moves (lines 41-63, 96-102) -/

/-- Lines 41-46: one raw record as it sits in memory, fields in host order:
`key : uint64_t`, `move : uint16_t`, `weight : uint16_t`, `learn : uint32_t`. -/
structure EntryStruct where
  key : Nat
  move : Nat
  weight : Nat
  learn : Nat
deriving DecidableEq, Repr

/-- Lines 52-58: five `uint8_t` fields, each initialised to 0. -/
structure BookMove where
  toFile : Nat := 0
  toRow : Nat := 0
  fromFile : Nat := 0
  fromRow : Nat := 0
  promotion : Nat := 0
deriving DecidableEq, Repr

/-- Lines 96-100: a move with its `uint16_t` weight and `uint32_t` learn value.
The C++ local `BookEntry book_entry;` leaves `weight` and `learn` indeterminate;
the defaults here are never observed because all three fields are assigned
before every `push_back`. -/
structure BookEntry where
  move : BookMove := {}
  weight : Nat := 0
  learn : Nat := 0
deriving DecidableEq, Repr

/-- Line 62. -/
def Files : List String := ["a", "b", "c", "d", "e", "f", "g", "h"]

/-- Line 63. -/
def Rows : List String := ["1", "2", "3", "4", "5", "6", "7", "8"]

/-- The array behind the literal `"nbrq"` of line 75: four letters and the
terminating NUL, so index 4 is still inside the array. -/
def promotionChars : List Char := ['n', 'b', 'r', 'q', Char.ofNat 0]

/-- Lines 68-78. Indexing `Files`, `Rows` or the literal outside its bounds is
undefined behaviour and gives `none`. -/
def ConvertBookMoveToUci (move : BookMove) : Option String := do
  let move_string := ""
  let move_string := move_string ++ (← Files[move.fromFile]?)
  let move_string := move_string ++ (← Rows[move.fromRow]?)
  let move_string := move_string ++ (← Files[move.toFile]?)
  let move_string := move_string ++ (← Rows[move.toRow]?)
  if move.promotion ≠ 0 then
    let c ← promotionChars[move.promotion - 1]?
    pure (move_string.push c)
  else
    pure move_string

/-! ## The globals `num_entries` and `entries` (lines 48-50) -/

/-- What the global pointer `entries` designates. -/
inductive Buffer where
  /-- The zero-initialised global before any `Load`. -/
  | null : Buffer
  /-- A live block from `std::malloc`; a cell is `none` until a record has been
  read into it. -/
  | block (cells : List (Option EntryStruct)) : Buffer
  /-- A block that has been handed to `std::free`. -/
  | freed : Buffer
deriving DecidableEq, Repr

/-- `entries[i]`: the record in cell `i`, when the pointer designates a live block
that has a written cell there. -/
def Buffer.read : Buffer → Nat → Option EntryStruct
  | Buffer.block cells, i => (cells[i]?).join
  | _, _ => none

/-- Lines 48 and 50: `long int num_entries = 0; EntryStruct* entries;`. -/
structure Globals where
  num_entries : Nat := 0
  entries : Buffer := Buffer.null
deriving DecidableEq, Repr

/-! ## `Book::Load` (lines 110-134) -/

/-- `sizeof(EntryStruct)`: 8 + 2 + 2 + 4 bytes, no padding. -/
def sizeof_EntryStruct : Nat := 16

/-- Value of a byte sequence held in memory on a little-endian host. -/
def leValue : List Nat → Nat
  | [] => 0
  | b :: bs => b + 256 * leValue bs

/-- The `EntryStruct` that 16 bytes copied by `fread` denote on a little-endian
host: `key` at offset 0, `move` at 8, `weight` at 10, `learn` at 12. -/
def EntryStruct.ofBytes (chunk : List Nat) : EntryStruct :=
  { key := leValue (chunk.take 8)
    move := leValue ((chunk.drop 8).take 2)
    weight := leValue ((chunk.drop 10).take 2)
    learn := leValue ((chunk.drop 12).take 4) }

/-- Bytes `16 * i .. 16 * i + 15` of the file. -/
def chunkAt (bytes : List Nat) (i : Nat) : List Nat :=
  (bytes.drop (sizeof_EntryStruct * i)).take sizeof_EntryStruct

/-- Lines 110-134. `file` is what `fopen` found (`none` for a null `FILE*`),
given as the file's bytes, so `ftell` after `fseek(SEEK_END)` is their number.
`delivered` is the number of whole records the stream hands over before a read
error; `fread` returns `min num_entries delivered` and the remaining cells of the
fresh block stay unwritten. The return value of `fread` is not inspected (line
130). The second component is the line written to `std::cerr`, if any.
`malloc` is taken to succeed. -/
def Load (g : Globals) (file : Option (List Nat)) (delivered : Nat) : Globals × Option String :=
  match file with
  | none => (g, some "<Error> Please use valid book")
  | some bytes =>
    let position := bytes.length
    if position < sizeof_EntryStruct then
      (g, some "<Error> No entries found")
    else
      let num_entries := position / sizeof_EntryStruct
      let returnValue := min num_entries delivered
      let cells := (List.range num_entries).map fun i =>
        if i < returnValue then some (EntryStruct.ofBytes (chunkAt bytes i)) else none
      ({ num_entries := num_entries, entries := Buffer.block cells }, none)

/-- Lines 190-192: `std::free(entries)`; `num_entries` is not written. Freeing the
null pointer does nothing; freeing a freed block is undefined (`none`). -/
def Clear (g : Globals) : Option Globals :=
  match g.entries with
  | Buffer.null => some g
  | Buffer.block _ => some { g with entries := Buffer.freed }
  | Buffer.freed => none

/-! ## Lookup (lines 140-187) -/

/-- Lines 149-153 and, identically, 175-179: the five assignments to the local
`book_move`, each narrowed to `uint8_t`. -/
def decodeMove (move : Nat) (book_move : BookMove) : BookMove :=
  let book_move := { book_move with fromFile := ((move >>> 6) &&& 7) % 2 ^ 8 }
  let book_move := { book_move with fromRow := ((move >>> 9) &&& 7) % 2 ^ 8 }
  let book_move := { book_move with toFile := ((move >>> 0) &&& 7) % 2 ^ 8 }
  let book_move := { book_move with toRow := ((move >>> 3) &&& 7) % 2 ^ 8 }
  let book_move := { book_move with promotion := ((move >>> 12) &&& 7) % 2 ^ 8 }
  book_move

/-- The `for` loop of lines 146-156 with `remaining = num_entries - i` iterations
left, `entry = entries + i`, and the locals `book_move` and `BookMoves`. -/
def GetBookMoves.loop (entries : Buffer) (key minimum_weight : Nat) :
    Nat → Nat → BookMove → List BookMove → Option (List BookMove)
  | 0, _, _, BookMoves => some BookMoves
  | remaining + 1, i, book_move, BookMoves =>
    match entries.read i with
    | none => none
    | some entry =>
      if endian_swap_u64 entry.key = key ∧ endian_swap_u16 entry.weight ≥ minimum_weight then
        let move := endian_swap_u16 entry.move
        let book_move := decodeMove move book_move
        GetBookMoves.loop entries key minimum_weight remaining (i + 1) book_move
          (BookMoves ++ [book_move])
      else
        GetBookMoves.loop entries key minimum_weight remaining (i + 1) book_move BookMoves

/-- Lines 140-158. -/
def GetBookMoves (g : Globals) (key minimum_weight : Nat) : Option (List BookMove) :=
  GetBookMoves.loop g.entries key minimum_weight g.num_entries 0 {} []

/-- The `for` loop of lines 172-185, with the locals `book_move`, `book_entry`
and `BookEntries`. -/
def SearchBook.loop (entries : Buffer) (key minimum_weight : Nat) :
    Nat → Nat → BookMove → BookEntry → List BookEntry → Option (List BookEntry)
  | 0, _, _, _, BookEntries => some BookEntries
  | remaining + 1, i, book_move, book_entry, BookEntries =>
    match entries.read i with
    | none => none
    | some entry =>
      if endian_swap_u64 entry.key = key ∧ endian_swap_u16 entry.weight ≥ minimum_weight then
        let move := endian_swap_u16 entry.move
        let book_move := decodeMove move book_move
        let book_entry := { book_entry with move := book_move }
        let book_entry := { book_entry with weight := endian_swap_u16 entry.weight }
        let book_entry := { book_entry with learn := endian_swap_u32 entry.learn }
        SearchBook.loop entries key minimum_weight remaining (i + 1) book_move book_entry
          (BookEntries ++ [book_entry])
      else
        SearchBook.loop entries key minimum_weight remaining (i + 1) book_move book_entry
          BookEntries

/-- Lines 165-187. -/
def SearchBook (g : Globals) (key minimum_weight : Nat) : Option (List BookEntry) :=
  SearchBook.loop g.entries key minimum_weight g.num_entries 0 {} {} []

/-! ## `RandomBookMove` (lines 83-94) -/

/-- Selection sampling, the scheme `std::sample` applies to a forward range and
an output iterator: going through the population once, an element is copied
when a uniform draw from `[0, remaining - 1]` is below the number `n` of
elements still to copy. The draw for the `k`-th element is `g k` reduced to that
range, `g` being the values the random engine produces. -/
def sample.go {α : Type} : List α → Nat → (Nat → Nat) → List α
  | [], _, _ => []
  | x :: rest, n, g =>
    if n = 0 then []
    else if g 0 % (rest.length + 1) < n then
      x :: sample.go rest (n - 1) (fun k => g (k + 1))
    else
      sample.go rest n (fun k => g (k + 1))

/-- The elements `std::sample(first, last, out, n, g)` appends to `out`:
`min n (last - first)` elements of the population, in population order. -/
def sample {α : Type} (population : List α) (n : Nat) (g : Nat → Nat) : List α :=
  sample.go population (min n population.length) g

/-- Lines 83-94. `g` stands for the engine `std::mt19937` seeded from
`std::random_device`. `move[0]` on an empty vector is undefined behaviour and
gives `none`. -/
def RandomBookMove (book_moves : List BookMove) (g : Nat → Nat) : Option BookMove :=
  let move : List BookMove := []
  let nelems := 1
  let move := move ++ sample book_moves nelems g
  move[0]?

/-! ## Specification-side definitions -/

/-- The globals after a complete load of the records `recs`: the count is their
number and every cell of the block is written. -/
def loaded (recs : List EntryStruct) : Globals :=
  { num_entries := recs.length, entries := Buffer.block (recs.map some) }

/-- The match rule of the specification: normalized key equals the query key and
normalized weight is at least `minWeight`. -/
def isMatch (K minWeight : Nat) (r : EntryStruct) : Bool :=
  decide (endian_swap_u64 r.key = K) && decide (minWeight ≤ endian_swap_u16 r.weight)

/-- The bit layout of the specification's data model: bits 0-2 `toFile`, 3-5
`toRow`, 6-8 `fromFile`, 9-11 `fromRow`, 12-14 `promotion`. -/
def decode (rawMoveBits : Nat) : BookMove :=
  { toFile := rawMoveBits / 2 ^ 0 % 8
    toRow := rawMoveBits / 2 ^ 3 % 8
    fromFile := rawMoveBits / 2 ^ 6 % 8
    fromRow := rawMoveBits / 2 ^ 9 % 8
    promotion := rawMoveBits / 2 ^ 12 % 8 }

/-- The `BookEntry` the specification returns for a matched record. -/
def toBookEntry (r : EntryStruct) : BookEntry :=
  { move := decode (endian_swap_u16 r.move)
    weight := endian_swap_u16 r.weight
    learn := endian_swap_u32 r.learn }

/-- The promotion-letter table of the specification: n, b, r, q for 1..4 and no
suffix for 0. -/
def promotionLetter : Nat → String
  | 1 => "n"
  | 2 => "b"
  | 3 => "r"
  | 4 => "q"
  | _ => ""

/-- The notation of the specification:
`<fromFile><fromRow><toFile><toRow>[<promotionLetter>]`. -/
def encodeToNotation (move : BookMove) : String :=
  Files.getD move.fromFile "" ++ Rows.getD move.fromRow "" ++
    Files.getD move.toFile "" ++ Rows.getD move.toRow "" ++ promotionLetter move.promotion

/-- The range invariant the specification states for a decoded move. -/
def InRange (move : BookMove) : Prop :=
  move.fromFile ≤ 7 ∧ move.fromRow ≤ 7 ∧ move.toFile ≤ 7 ∧ move.toRow ≤ 7 ∧ move.promotion ≤ 4

instance (move : BookMove) : Decidable (InRange move) := by
  unfold InRange
  infer_instance

/-- Big-endian serialization of `v` in `n` bytes, most significant byte first. -/
def beBytes : Nat → Nat → List Nat
  | 0, _ => []
  | n + 1, v => byteAt v n :: beBytes n v

/-- One record of the file format: `key:u64 | move:u16 | weight:u16 | learn:u32`,
each field big-endian. -/
def serialize (K m w l : Nat) : List Nat :=
  beBytes 8 K ++ beBytes 2 m ++ beBytes 2 w ++ beBytes 4 l

/-! ## Byte-order routines: bit-level characterisation -/

theorem testBit_byteMask (m k j : Nat) (hm : m = 255 <<< k) :
    m.testBit j = (decide (k ≤ j) && decide (j < k + 8)) := by
  subst hm
  rw [Nat.testBit_shiftLeft, show (255 : Nat) = 2 ^ 8 - 1 by norm_num,
    Nat.testBit_two_pow_sub_one]
  by_cases h : k ≤ j
  · simp [h]; omega
  · simp [h]

theorem testBit_of_lt (x n j : Nat) (hx : x < 2 ^ n) (hj : n ≤ j) : x.testBit j = false :=
  Nat.testBit_lt_two_pow (lt_of_lt_of_le hx (Nat.pow_le_pow_right (by norm_num) hj))

theorem swap16_testBit (x k : Nat) (hx : x < 2 ^ 16) :
    (endian_swap_u16 x).testBit k =
      if k < 8 then x.testBit (8 + k) else if k < 16 then x.testBit (k - 8) else false := by
  have h16 : ∀ j, 16 ≤ j → x.testBit j = false := fun j hj => testBit_of_lt x 16 j hx hj
  unfold endian_swap_u16
  simp only [Nat.testBit_mod_two_pow, Nat.testBit_or, Nat.testBit_shiftRight,
    Nat.testBit_shiftLeft]
  split_ifs <;>
    simp (disch := omega) only [decide_eq_true, decide_eq_false, h16, Bool.true_and,
      Bool.and_true, Bool.false_and, Bool.and_false, Bool.or_false, Bool.false_or, Bool.and_self]

theorem swap32_testBit (x k : Nat) (hx : x < 2 ^ 32) :
    (endian_swap_u32 x).testBit k =
      if k < 8 then x.testBit (24 + k) else if k < 16 then x.testBit (8 + k)
      else if k < 24 then x.testBit (k - 8) else if k < 32 then x.testBit (k - 24)
      else false := by
  have h32 : ∀ j, 32 ≤ j → x.testBit j = false := fun j hj => testBit_of_lt x 32 j hx hj
  have m16 : ∀ j, (0x00FF0000 : Nat).testBit j = (decide (16 ≤ j) && decide (j < 16 + 8)) :=
    fun j => testBit_byteMask _ 16 j (by decide)
  have m8 : ∀ j, (0x0000FF00 : Nat).testBit j = (decide (8 ≤ j) && decide (j < 8 + 8)) :=
    fun j => testBit_byteMask _ 8 j (by decide)
  unfold endian_swap_u32
  simp only [Nat.testBit_mod_two_pow, Nat.testBit_or, Nat.testBit_and, Nat.testBit_shiftRight,
    Nat.testBit_shiftLeft, m16, m8]
  split_ifs <;>
    simp (disch := omega) only [decide_eq_true, decide_eq_false, h32, Bool.true_and,
      Bool.and_true, Bool.false_and, Bool.and_false, Bool.or_false, Bool.false_or, Bool.and_self]

theorem swap64_testBit (x k : Nat) (hx : x < 2 ^ 64) :
    (endian_swap_u64 x).testBit k =
      if k < 8 then x.testBit (56 + k) else if k < 16 then x.testBit (40 + k)
      else if k < 24 then x.testBit (24 + k) else if k < 32 then x.testBit (8 + k)
      else if k < 40 then x.testBit (k - 8) else if k < 48 then x.testBit (k - 24)
      else if k < 56 then x.testBit (k - 40) else if k < 64 then x.testBit (k - 56)
      else false := by
  have h64 : ∀ j, 64 ≤ j → x.testBit j = false := fun j hj => testBit_of_lt x 64 j hx hj
  have m48 : ∀ j, (0x00FF000000000000 : Nat).testBit j
      = (decide (48 ≤ j) && decide (j < 48 + 8)) := fun j => testBit_byteMask _ 48 j (by decide)
  have m40 : ∀ j, (0x0000FF0000000000 : Nat).testBit j
      = (decide (40 ≤ j) && decide (j < 40 + 8)) := fun j => testBit_byteMask _ 40 j (by decide)
  have m32 : ∀ j, (0x000000FF00000000 : Nat).testBit j
      = (decide (32 ≤ j) && decide (j < 32 + 8)) := fun j => testBit_byteMask _ 32 j (by decide)
  have m24 : ∀ j, (0x00000000FF000000 : Nat).testBit j
      = (decide (24 ≤ j) && decide (j < 24 + 8)) := fun j => testBit_byteMask _ 24 j (by decide)
  have m16 : ∀ j, (0x0000000000FF0000 : Nat).testBit j
      = (decide (16 ≤ j) && decide (j < 16 + 8)) := fun j => testBit_byteMask _ 16 j (by decide)
  have m8 : ∀ j, (0x000000000000FF00 : Nat).testBit j
      = (decide (8 ≤ j) && decide (j < 8 + 8)) := fun j => testBit_byteMask _ 8 j (by decide)
  unfold endian_swap_u64
  simp only [Nat.testBit_mod_two_pow, Nat.testBit_or, Nat.testBit_and, Nat.testBit_shiftRight,
    Nat.testBit_shiftLeft, m48, m40, m32, m24, m16, m8]
  split_ifs <;>
    simp (disch := omega) only [decide_eq_true, decide_eq_false, h64, Bool.true_and,
      Bool.and_true, Bool.false_and, Bool.and_false, Bool.or_false, Bool.false_or, Bool.and_self]

theorem byteAt_testBit (x i j : Nat) :
    (byteAt x i).testBit j = (decide (j < 8) && x.testBit (8 * i + j)) := by
  unfold byteAt
  rw [show (256 : Nat) ^ i = 2 ^ (8 * i) by rw [pow_mul]; norm_num,
    show (256 : Nat) = 2 ^ 8 by norm_num, ← Nat.shiftRight_eq_div_pow,
    Nat.testBit_mod_two_pow, Nat.testBit_shiftRight]

theorem swap16_byteAt (x i : Nat) (hx : x < 2 ^ 16) (hi : i < 2) :
    byteAt (endian_swap_u16 x) i = byteAt x (2 - 1 - i) := by
  apply Nat.eq_of_testBit_eq
  intro j
  rw [byteAt_testBit, byteAt_testBit, swap16_testBit x _ hx]
  by_cases hj : j < 8
  · simp only [hj, decide_True, Bool.true_and]
    split_ifs <;> (congr 1; omega)
  · simp [hj]

theorem swap32_byteAt (x i : Nat) (hx : x < 2 ^ 32) (hi : i < 4) :
    byteAt (endian_swap_u32 x) i = byteAt x (4 - 1 - i) := by
  apply Nat.eq_of_testBit_eq
  intro j
  rw [byteAt_testBit, byteAt_testBit, swap32_testBit x _ hx]
  by_cases hj : j < 8
  · simp only [hj, decide_True, Bool.true_and]
    split_ifs <;> (congr 1; omega)
  · simp [hj]

theorem swap64_byteAt (x i : Nat) (hx : x < 2 ^ 64) (hi : i < 8) :
    byteAt (endian_swap_u64 x) i = byteAt x (8 - 1 - i) := by
  apply Nat.eq_of_testBit_eq
  intro j
  rw [byteAt_testBit, byteAt_testBit, swap64_testBit x _ hx]
  by_cases hj : j < 8
  · simp only [hj, decide_True, Bool.true_and]
    split_ifs <;> (congr 1; omega)
  · simp [hj]

theorem swap16_lt (x : Nat) : endian_swap_u16 x < 2 ^ 16 := Nat.mod_lt _ (by norm_num)

theorem swap32_lt (x : Nat) : endian_swap_u32 x < 2 ^ 32 := Nat.mod_lt _ (by norm_num)

theorem swap64_lt (x : Nat) : endian_swap_u64 x < 2 ^ 64 := Nat.mod_lt _ (by norm_num)

/-- C10: each of `endian_swap_u16`, `endian_swap_u32`, `endian_swap_u64` (total
functions) returns a value of its own width whose byte `i` is byte `n - 1 - i` of
the argument, for `n = 2, 4, 8` and every byte index `i < n`. -/
theorem endian_swap_reverses_bytes (x i : Nat) :
    (x < 2 ^ 16 → i < 2 →
      endian_swap_u16 x < 2 ^ 16 ∧ byteAt (endian_swap_u16 x) i = byteAt x (2 - 1 - i)) ∧
    (x < 2 ^ 32 → i < 4 →
      endian_swap_u32 x < 2 ^ 32 ∧ byteAt (endian_swap_u32 x) i = byteAt x (4 - 1 - i)) ∧
    (x < 2 ^ 64 → i < 8 →
      endian_swap_u64 x < 2 ^ 64 ∧ byteAt (endian_swap_u64 x) i = byteAt x (8 - 1 - i)) :=
  ⟨fun hx hi => ⟨swap16_lt x, swap16_byteAt x i hx hi⟩,
   fun hx hi => ⟨swap32_lt x, swap32_byteAt x i hx hi⟩,
   fun hx hi => ⟨swap64_lt x, swap64_byteAt x i hx hi⟩⟩

theorem endian_swap_reverses_bytes_witness :
    (endian_swap_u16 0x1234 < 2 ^ 16 ∧
      byteAt (endian_swap_u16 0x1234) 1 = byteAt 0x1234 (2 - 1 - 1)) ∧
    (endian_swap_u32 0x12345678 < 2 ^ 32 ∧
      byteAt (endian_swap_u32 0x12345678) 1 = byteAt 0x12345678 (4 - 1 - 1)) ∧
    (endian_swap_u64 0x0102030405060708 < 2 ^ 64 ∧
      byteAt (endian_swap_u64 0x0102030405060708) 1 = byteAt 0x0102030405060708 (8 - 1 - 1)) :=
  ⟨(endian_swap_reverses_bytes 0x1234 1).1 (by norm_num) (by norm_num),
   (endian_swap_reverses_bytes 0x12345678 1).2.1 (by norm_num) (by norm_num),
   (endian_swap_reverses_bytes 0x0102030405060708 1).2.2 (by norm_num) (by norm_num)⟩

/-! ## Move decoding -/

theorem and_seven (y : Nat) : (y &&& 7) % 2 ^ 8 = y % 8 := by
  have h : y &&& 7 = y % 8 := Nat.and_pow_two_sub_one_eq_mod y 3
  rw [h]
  omega

theorem decodeMove_eq_decode (move : Nat) (book_move : BookMove) :
    decodeMove move book_move = decode move := by
  simp only [decodeMove, decode, and_seven, Nat.shiftRight_eq_div_pow]

/-! ## Lookup loops -/

theorem read_block_append (pre rest : List EntryStruct) (r : EntryStruct) :
    (Buffer.block ((pre ++ r :: rest).map some)).read pre.length = some r := by
  have h : (List.map some pre ++ some r :: List.map some rest)[pre.length]? = some (some r) := by
    rw [List.getElem?_append_right (by simp)]
    simp
  simp [Buffer.read, h]

theorem isMatch_iff (K w : Nat) (r : EntryStruct) :
    isMatch K w r = true ↔ endian_swap_u64 r.key = K ∧ endian_swap_u16 r.weight ≥ w := by
  simp [isMatch]

theorem GetBookMoves_loop_block (K w : Nat) (rest : List EntryStruct) :
    ∀ (pre : List EntryStruct) (book_move : BookMove) (acc : List BookMove),
      GetBookMoves.loop (Buffer.block ((pre ++ rest).map some)) K w rest.length pre.length
          book_move acc
        = some (acc ++ (rest.filter (isMatch K w)).map
            (fun r => decode (endian_swap_u16 r.move))) := by
  induction rest with
  | nil => intro pre book_move acc; simp [GetBookMoves.loop]
  | cons r rest ih =>
    intro pre book_move acc
    have hpre : pre ++ r :: rest = (pre ++ [r]) ++ rest := by simp
    have hlen : pre.length + 1 = (pre ++ [r]).length := by simp
    rw [List.length_cons, GetBookMoves.loop, read_block_append]
    by_cases h : endian_swap_u64 r.key = K ∧ endian_swap_u16 r.weight ≥ w
    · have hm : isMatch K w r = true := (isMatch_iff K w r).2 h
      simp only [h, and_self, if_true, hm, List.filter_cons_of_pos, List.map_cons]
      rw [hpre, hlen, ih, decodeMove_eq_decode]
      simp
    · have hm : ¬ isMatch K w r = true := fun hc => h ((isMatch_iff K w r).1 hc)
      simp only [if_neg h]
      rw [List.filter_cons_of_neg hm, hpre, hlen, ih]

theorem GetBookMoves_loaded (recs : List EntryStruct) (K w : Nat) :
    GetBookMoves (loaded recs) K w
      = some ((recs.filter (isMatch K w)).map (fun r => decode (endian_swap_u16 r.move))) := by
  have h := GetBookMoves_loop_block K w recs [] {} []
  simpa [GetBookMoves, loaded] using h

theorem SearchBook_loop_block (K w : Nat) (rest : List EntryStruct) :
    ∀ (pre : List EntryStruct) (book_move : BookMove) (book_entry : BookEntry)
      (acc : List BookEntry),
      SearchBook.loop (Buffer.block ((pre ++ rest).map some)) K w rest.length pre.length
          book_move book_entry acc
        = some (acc ++ (rest.filter (isMatch K w)).map toBookEntry) := by
  induction rest with
  | nil => intro pre book_move book_entry acc; simp [SearchBook.loop]
  | cons r rest ih =>
    intro pre book_move book_entry acc
    have hpre : pre ++ r :: rest = (pre ++ [r]) ++ rest := by simp
    have hlen : pre.length + 1 = (pre ++ [r]).length := by simp
    rw [List.length_cons, SearchBook.loop, read_block_append]
    by_cases h : endian_swap_u64 r.key = K ∧ endian_swap_u16 r.weight ≥ w
    · have hm : isMatch K w r = true := (isMatch_iff K w r).2 h
      simp only [h, and_self, if_true, hm, List.filter_cons_of_pos, List.map_cons]
      rw [hpre, hlen, ih, decodeMove_eq_decode]
      simp [toBookEntry]
    · have hm : ¬ isMatch K w r = true := fun hc => h ((isMatch_iff K w r).1 hc)
      simp only [if_neg h]
      rw [List.filter_cons_of_neg hm, hpre, hlen, ih]

theorem SearchBook_loaded (recs : List EntryStruct) (K w : Nat) :
    SearchBook (loaded recs) K w = some ((recs.filter (isMatch K w)).map toBookEntry) := by
  have h := SearchBook_loop_block K w recs [] {} {} []
  simpa [SearchBook, loaded] using h

/-! ## Notation -/

theorem Files_char : ∀ i, i ≤ 7 → ∃ c, c ∈ "abcdefgh".toList ∧
    Files[i]? = some (String.mk [c])
  | 0, _ => ⟨'a', by decide, rfl⟩
  | 1, _ => ⟨'b', by decide, rfl⟩
  | 2, _ => ⟨'c', by decide, rfl⟩
  | 3, _ => ⟨'d', by decide, rfl⟩
  | 4, _ => ⟨'e', by decide, rfl⟩
  | 5, _ => ⟨'f', by decide, rfl⟩
  | 6, _ => ⟨'g', by decide, rfl⟩
  | 7, _ => ⟨'h', by decide, rfl⟩
  | n + 8, h => absurd h (by omega)

theorem Rows_char : ∀ i, i ≤ 7 → ∃ c, c ∈ "12345678".toList ∧
    Rows[i]? = some (String.mk [c])
  | 0, _ => ⟨'1', by decide, rfl⟩
  | 1, _ => ⟨'2', by decide, rfl⟩
  | 2, _ => ⟨'3', by decide, rfl⟩
  | 3, _ => ⟨'4', by decide, rfl⟩
  | 4, _ => ⟨'5', by decide, rfl⟩
  | 5, _ => ⟨'6', by decide, rfl⟩
  | 6, _ => ⟨'7', by decide, rfl⟩
  | 7, _ => ⟨'8', by decide, rfl⟩
  | n + 8, h => absurd h (by omega)

theorem promotion_char : ∀ p, p ≤ 4 → p ≠ 0 → ∃ c, c ∈ "nbrq".toList ∧
    promotionChars[p - 1]? = some c ∧ promotionLetter p = String.mk [c]
  | 0, _, h => absurd rfl h
  | 1, _, _ => ⟨'n', by decide, rfl, rfl⟩
  | 2, _, _ => ⟨'b', by decide, rfl, rfl⟩
  | 3, _, _ => ⟨'r', by decide, rfl, rfl⟩
  | 4, _, _ => ⟨'q', by decide, rfl, rfl⟩
  | n + 5, h, _ => absurd h (by omega)

theorem ConvertBookMoveToUci_chars (move : BookMove) (h : InRange move) :
    ∃ f₁ r₁ f₂ r₂ : Char, f₁ ∈ "abcdefgh".toList ∧ r₁ ∈ "12345678".toList ∧
      f₂ ∈ "abcdefgh".toList ∧ r₂ ∈ "12345678".toList ∧
      ((move.promotion = 0 ∧ ConvertBookMoveToUci move = some (String.mk [f₁, r₁, f₂, r₂]) ∧
          encodeToNotation move = String.mk [f₁, r₁, f₂, r₂]) ∨
       (move.promotion ≠ 0 ∧ ∃ p, p ∈ "nbrq".toList ∧
          ConvertBookMoveToUci move = some (String.mk [f₁, r₁, f₂, r₂, p]) ∧
          encodeToNotation move = String.mk [f₁, r₁, f₂, r₂, p])) := by
  obtain ⟨hff, hfr, htf, htr, hp⟩ := h
  obtain ⟨f₁, hf₁, e₁⟩ := Files_char _ hff
  obtain ⟨r₁, hr₁, e₂⟩ := Rows_char _ hfr
  obtain ⟨f₂, hf₂, e₃⟩ := Files_char _ htf
  obtain ⟨r₂, hr₂, e₄⟩ := Rows_char _ htr
  refine ⟨f₁, r₁, f₂, r₂, hf₁, hr₁, hf₂, hr₂, ?_⟩
  by_cases h0 : move.promotion = 0
  · left
    refine ⟨h0, ?_, ?_⟩
    · simp [ConvertBookMoveToUci, e₁, e₂, e₃, e₄, h0, String.ext_iff]
    · simp [encodeToNotation, e₁, e₂, e₃, e₄, h0, promotionLetter, String.ext_iff]
  · right
    obtain ⟨p, hp', e₅, d₅⟩ := promotion_char _ hp h0
    refine ⟨h0, p, hp', ?_, ?_⟩
    · simp [ConvertBookMoveToUci, e₁, e₂, e₃, e₄, e₅, h0, String.ext_iff]
    · simp [encodeToNotation, e₁, e₂, e₃, e₄, d₅, String.ext_iff]

theorem ConvertBookMoveToUci_eq_encode (move : BookMove) (h : InRange move) :
    ConvertBookMoveToUci move = some (encodeToNotation move) := by
  obtain ⟨f₁, r₁, f₂, r₂, -, -, -, -, h | h⟩ := ConvertBookMoveToUci_chars move h
  · rw [h.2.1, h.2.2]
  · obtain ⟨-, p, -, hc, he⟩ := h
    rw [hc, he]

theorem decode_le_seven (m : Nat) :
    (decode m).fromFile ≤ 7 ∧ (decode m).fromRow ≤ 7 ∧ (decode m).toFile ≤ 7 ∧
      (decode m).toRow ≤ 7 ∧ (decode m).promotion ≤ 7 := by
  simp only [decode]
  omega

theorem InRange_decode_iff (m : Nat) : InRange (decode m) ↔ m / 2 ^ 12 % 8 ≤ 4 := by
  simp only [InRange, decode]
  omega

/-! ## Byte-order routines: values -/

theorem swap16_value (x : Nat) (hx : x < 2 ^ 16) :
    endian_swap_u16 x = byteAt x 1 + 256 * byteAt x 0 := by
  have h := swap16_lt x
  have h0 := swap16_byteAt x 0 hx (by norm_num)
  have h1 := swap16_byteAt x 1 hx (by norm_num)
  simp only [Nat.sub_zero, Nat.reduceSub] at h0 h1
  rw [← h0, ← h1]
  generalize endian_swap_u16 x = y at h
  simp only [byteAt]
  norm_num
  omega

theorem swap32_value (x : Nat) (hx : x < 2 ^ 32) :
    endian_swap_u32 x
      = byteAt x 3 + 256 * byteAt x 2 + 256 ^ 2 * byteAt x 1 + 256 ^ 3 * byteAt x 0 := by
  have h := swap32_lt x
  have h0 := swap32_byteAt x 0 hx (by norm_num)
  have h1 := swap32_byteAt x 1 hx (by norm_num)
  have h2 := swap32_byteAt x 2 hx (by norm_num)
  have h3 := swap32_byteAt x 3 hx (by norm_num)
  simp only [Nat.sub_zero, Nat.reduceSub] at h0 h1 h2 h3
  rw [← h0, ← h1, ← h2, ← h3]
  generalize endian_swap_u32 x = y at h
  simp only [byteAt]
  norm_num
  omega

theorem swap64_value (x : Nat) (hx : x < 2 ^ 64) :
    endian_swap_u64 x
      = byteAt x 7 + 256 * byteAt x 6 + 256 ^ 2 * byteAt x 5 + 256 ^ 3 * byteAt x 4
        + 256 ^ 4 * byteAt x 3 + 256 ^ 5 * byteAt x 2 + 256 ^ 6 * byteAt x 1
        + 256 ^ 7 * byteAt x 0 := by
  have h := swap64_lt x
  have h0 := swap64_byteAt x 0 hx (by norm_num)
  have h1 := swap64_byteAt x 1 hx (by norm_num)
  have h2 := swap64_byteAt x 2 hx (by norm_num)
  have h3 := swap64_byteAt x 3 hx (by norm_num)
  have h4 := swap64_byteAt x 4 hx (by norm_num)
  have h5 := swap64_byteAt x 5 hx (by norm_num)
  have h6 := swap64_byteAt x 6 hx (by norm_num)
  have h7 := swap64_byteAt x 7 hx (by norm_num)
  simp only [Nat.sub_zero, Nat.reduceSub] at h0 h1 h2 h3 h4 h5 h6 h7
  rw [← h0, ← h1, ← h2, ← h3, ← h4, ← h5, ← h6, ← h7]
  generalize endian_swap_u64 x = y at h
  simp only [byteAt]
  norm_num
  omega

theorem byteAt_lt (x i : Nat) : byteAt x i < 256 := Nat.mod_lt _ (by norm_num)

theorem byteAt_cons (b y i : Nat) (hb : b < 256) :
    byteAt (b + 256 * y) (i + 1) = byteAt y i ∧ byteAt (b + 256 * y) 0 = b := by
  unfold byteAt
  constructor
  · have h : (b + 256 * y) / 256 = y := by omega
    rw [pow_succ', ← Nat.div_div_eq_div_mul, h]
  · simp
    omega

theorem byteAt_leValue (bs : List Nat) (hbs : ∀ b ∈ bs, b < 256) :
    ∀ i, byteAt (leValue bs) i = bs.getD i 0 := by
  induction bs with
  | nil => intro i; simp [leValue, byteAt]
  | cons b bs ih =>
    intro i
    have hb : b < 256 := hbs b (by simp)
    have ih2 := ih (fun c hc => hbs c (by simp [hc]))
    cases i with
    | zero => simpa [leValue] using (byteAt_cons b (leValue bs) 0 hb).2
    | succ i => simpa [leValue, ih2 i] using (byteAt_cons b (leValue bs) i hb).1

theorem beBytes_lt (n v : Nat) : ∀ b ∈ beBytes n v, b < 256 := by
  induction n with
  | zero => simp [beBytes]
  | succ n ih =>
    intro b hb
    simp only [beBytes, List.mem_cons] at hb
    rcases hb with rfl | hb
    · exact byteAt_lt _ _
    · exact ih b hb

theorem beBytes_length (n v : Nat) : (beBytes n v).length = n := by
  induction n with
  | zero => rfl
  | succ n ih => simp [beBytes, ih]

theorem leValue_lt (bs : List Nat) (hbs : ∀ b ∈ bs, b < 256) :
    leValue bs < 256 ^ bs.length := by
  induction bs with
  | nil => simp [leValue]
  | cons b bs ih =>
    have hb : b < 256 := hbs b (by simp)
    have ih2 := ih (fun c hc => hbs c (by simp [hc]))
    simp only [leValue, List.length_cons, pow_succ]
    omega

theorem leValue_beBytes_lt (n v : Nat) : leValue (beBytes n v) < 256 ^ n := by
  have h := leValue_lt (beBytes n v) (beBytes_lt n v)
  rwa [beBytes_length] at h

theorem swap16_leValue_beBytes (m : Nat) (hm : m < 2 ^ 16) :
    endian_swap_u16 (leValue (beBytes 2 m)) = m := by
  have hlt : leValue (beBytes 2 m) < 2 ^ 16 := leValue_beBytes_lt 2 m
  have hb := byteAt_leValue (beBytes 2 m) (beBytes_lt 2 m)
  rw [swap16_value _ hlt, hb 0, hb 1]
  simp only [beBytes, List.getD_cons_zero, List.getD_cons_succ, byteAt]
  norm_num
  omega

theorem swap32_leValue_beBytes (l : Nat) (hl : l < 2 ^ 32) :
    endian_swap_u32 (leValue (beBytes 4 l)) = l := by
  have hlt : leValue (beBytes 4 l) < 2 ^ 32 := leValue_beBytes_lt 4 l
  have hb := byteAt_leValue (beBytes 4 l) (beBytes_lt 4 l)
  rw [swap32_value _ hlt, hb 0, hb 1, hb 2, hb 3]
  simp only [beBytes, List.getD_cons_zero, List.getD_cons_succ, byteAt]
  norm_num
  omega

theorem swap64_leValue_beBytes (K : Nat) (hK : K < 2 ^ 64) :
    endian_swap_u64 (leValue (beBytes 8 K)) = K := by
  have hlt : leValue (beBytes 8 K) < 2 ^ 64 := leValue_beBytes_lt 8 K
  have hb := byteAt_leValue (beBytes 8 K) (beBytes_lt 8 K)
  rw [swap64_value _ hlt, hb 0, hb 1, hb 2, hb 3, hb 4, hb 5, hb 6, hb 7]
  simp only [beBytes, List.getD_cons_zero, List.getD_cons_succ, byteAt]
  norm_num
  omega

theorem ofBytes_serialize (K m w l : Nat) :
    EntryStruct.ofBytes (serialize K m w l)
      = { key := leValue (beBytes 8 K), move := leValue (beBytes 2 m),
          weight := leValue (beBytes 2 w), learn := leValue (beBytes 4 l) } := by
  simp [EntryStruct.ofBytes, serialize, beBytes]

/-! ## Loading -/

theorem Load_small (g : Globals) (bytes : List Nat) (delivered : Nat)
    (h : bytes.length < 16) :
    Load g (some bytes) delivered = (g, some "<Error> No entries found") := by
  simp [Load, sizeof_EntryStruct, h]

theorem Load_large (g : Globals) (bytes : List Nat) (delivered : Nat)
    (h : 16 ≤ bytes.length) :
    Load g (some bytes) delivered
      = ({ num_entries := bytes.length / 16,
           entries := Buffer.block ((List.range (bytes.length / 16)).map fun i =>
             if i < min (bytes.length / 16) delivered
             then some (EntryStruct.ofBytes ((bytes.drop (16 * i)).take 16)) else none) },
         none) := by
  have h' : ¬ bytes.length < 16 := by omega
  simp [Load, sizeof_EntryStruct, chunkAt, h']

theorem Load_complete (g : Globals) (bytes : List Nat) (delivered : Nat)
    (h : 16 ≤ bytes.length) (hd : bytes.length / 16 ≤ delivered) :
    Load g (some bytes) delivered
      = (loaded ((List.range (bytes.length / 16)).map fun i =>
          EntryStruct.ofBytes ((bytes.drop (16 * i)).take 16)), none) := by
  rw [Load_large g bytes delivered h]
  simp only [loaded, List.length_map, List.length_range, List.map_map, Prod.mk.injEq,
    Globals.mk.injEq, Buffer.block.injEq, true_and, and_true]
  apply List.map_congr_left
  intro i hi
  have hi' : i < bytes.length / 16 := List.mem_range.1 hi
  have : i < min (bytes.length / 16) delivered := by omega
  simp [this]

theorem chunks_of_flatten (chunks : List (List Nat)) (tail : List Nat)
    (hc : ∀ c ∈ chunks, c.length = 16) :
    (List.range chunks.length).map (fun i => ((chunks.flatten ++ tail).drop (16 * i)).take 16)
      = chunks := by
  induction chunks with
  | nil => simp
  | cons c cs ih =>
    have hlen : c.length = 16 := hc c (by simp)
    have ih2 := ih (fun d hd => hc d (by simp [hd]))
    rw [List.length_cons, List.range_succ_eq_map, List.map_cons, List.map_map]
    congr 1
    · simp [List.take_append_of_le_length, hlen]
    · rw [← ih2]
      simp only [List.length_map, List.length_range]
      apply List.map_congr_left
      intro i _
      have h16 : 16 * (i + 1) = c.length + 16 * i := by omega
      simp only [Function.comp, Nat.succ_eq_add_one, List.flatten_cons, List.append_assoc, h16,
        List.drop_append, ih2]

theorem length_flatten_chunks (chunks : List (List Nat)) (hc : ∀ c ∈ chunks, c.length = 16) :
    chunks.flatten.length = 16 * chunks.length := by
  induction chunks with
  | nil => simp
  | cons c cs ih =>
    have hlen : c.length = 16 := hc c (by simp)
    have ih2 := ih (fun d hd => hc d (by simp [hd]))
    simp only [List.flatten_cons, List.length_append, List.length_cons, hlen, ih2]
    omega

theorem records_of_flatten (chunks : List (List Nat)) (tail : List Nat)
    (hc : ∀ c ∈ chunks, c.length = 16) (ht : tail.length < 16) :
    (chunks.flatten ++ tail).length / 16 = chunks.length ∧
    (List.range ((chunks.flatten ++ tail).length / 16)).map
        (fun i => EntryStruct.ofBytes (((chunks.flatten ++ tail).drop (16 * i)).take 16))
      = chunks.map EntryStruct.ofBytes := by
  have hl : (chunks.flatten ++ tail).length / 16 = chunks.length := by
    rw [List.length_append, length_flatten_chunks chunks hc]
    omega
  refine ⟨hl, ?_⟩
  rw [hl]
  have h := congrArg (List.map EntryStruct.ofBytes) (chunks_of_flatten chunks tail hc)
  simpa [List.map_map, Function.comp] using h

/-! ## Main results -/

/-- C1: on the store holding the records `recs`, `GetBookMoves K w` returns, in
store order, the decode of `swap16 r.move` for exactly the records `r` with
`swap64 r.key = K` and `swap16 r.weight ≥ w`; a single matching-key record of
normalized weight exactly `w` is returned, one of weight `w - 1` is not. -/
theorem GetBookMoves_eq_filter_map (recs : List EntryStruct) (K w : Nat) :
    GetBookMoves (loaded recs) K w
      = some ((recs.filter fun r =>
            decide (endian_swap_u64 r.key = K) && decide (endian_swap_u16 r.weight ≥ w)).map
          fun r => decode (endian_swap_u16 r.move)) ∧
    (∀ r : EntryStruct, endian_swap_u64 r.key = K → endian_swap_u16 r.weight = w →
      GetBookMoves (loaded [r]) K w = some [decode (endian_swap_u16 r.move)]) ∧
    (∀ r : EntryStruct, endian_swap_u64 r.key = K → endian_swap_u16 r.weight + 1 = w →
      GetBookMoves (loaded [r]) K w = some []) := by
  refine ⟨GetBookMoves_loaded recs K w, ?_, ?_⟩
  · intro r hk hw
    rw [GetBookMoves_loaded]
    simp [isMatch, hk, hw]
  · intro r hk hw
    rw [GetBookMoves_loaded]
    have : ¬ w ≤ endian_swap_u16 r.weight := by omega
    simp [isMatch, hk, this]

theorem GetBookMoves_eq_filter_map_witness :
    GetBookMoves (loaded [⟨0x0807060504030201, 0x1C03, 0x0500, 0⟩]) 0x0102030405060708 5
      = some [decode (endian_swap_u16 0x1C03)] :=
  (GetBookMoves_eq_filter_map [⟨0x0807060504030201, 0x1C03, 0x0500, 0⟩] 0x0102030405060708 5).2.1
    ⟨0x0807060504030201, 0x1C03, 0x0500, 0⟩ (by decide) (by decide)

/-- C3: the move decoded inside `GetBookMoves` and `SearchBook` from the
normalized value `m` has `toFile`, `toRow`, `fromFile`, `fromRow`, `promotion`
equal to `(m >> k) & 7` for `k = 0, 3, 6, 9, 12`, whatever the local `book_move`
held before; two values that agree on bits 0-14 decode to the same move. -/
theorem decodeMove_bit_fields (m : Nat) (book_move : BookMove) :
    (decodeMove m book_move).toFile = (m >>> 0) &&& 7 ∧
    (decodeMove m book_move).toRow = (m >>> 3) &&& 7 ∧
    (decodeMove m book_move).fromFile = (m >>> 6) &&& 7 ∧
    (decodeMove m book_move).fromRow = (m >>> 9) &&& 7 ∧
    (decodeMove m book_move).promotion = (m >>> 12) &&& 7 ∧
    decodeMove m book_move = decode m ∧
    (∀ (m' : Nat) (book_move' : BookMove), m' % 2 ^ 15 = m % 2 ^ 15 →
      decodeMove m' book_move' = decodeMove m book_move) ∧
    (∀ (recs : List EntryStruct) (K w : Nat),
      GetBookMoves (loaded recs) K w
        = some ((recs.filter (isMatch K w)).map
            fun r => decodeMove (endian_swap_u16 r.move) {}) ∧
      SearchBook (loaded recs) K w
        = some ((recs.filter (isMatch K w)).map fun r =>
            { move := decodeMove (endian_swap_u16 r.move) {},
              weight := endian_swap_u16 r.weight,
              learn := endian_swap_u32 r.learn })) := by
  have h7 : ∀ y : Nat, y &&& 7 = y % 8 := fun y => Nat.and_pow_two_sub_one_eq_mod y 3
  refine ⟨?_, ?_, ?_, ?_, ?_, decodeMove_eq_decode m book_move, ?_, ?_⟩
  · rw [decodeMove_eq_decode, h7, Nat.shiftRight_eq_div_pow]; rfl
  · rw [decodeMove_eq_decode, h7, Nat.shiftRight_eq_div_pow]; rfl
  · rw [decodeMove_eq_decode, h7, Nat.shiftRight_eq_div_pow]; rfl
  · rw [decodeMove_eq_decode, h7, Nat.shiftRight_eq_div_pow]; rfl
  · rw [decodeMove_eq_decode, h7, Nat.shiftRight_eq_div_pow]; rfl
  · intro m' book_move' h
    rw [decodeMove_eq_decode, decodeMove_eq_decode]
    simp only [decode, BookMove.mk.injEq]
    norm_num
    omega
  · intro recs K w
    simp only [decodeMove_eq_decode]
    exact ⟨GetBookMoves_loaded recs K w, SearchBook_loaded recs K w⟩

theorem decodeMove_bit_fields_witness :
    decodeMove 0x831C {} = decodeMove 0x031C {} :=
  (decodeMove_bit_fields 0x031C {}).2.2.2.2.2.2.1 0x831C {} (by decide)

/-- C4: for a move with file and row fields in [0,7] and promotion in [0,4],
`ConvertBookMoveToUci` returns `Files[fromFile] ++ Rows[fromRow] ++ Files[toFile] ++
Rows[toRow]` followed by the promotion letter (n, b, r, q for 1..4, nothing for
0); the result has length 4 exactly when promotion is 0 and length 5 otherwise,
and is made of a letter a-h, a digit 1-8, a letter a-h, a digit 1-8 and, when
promotion is not 0, one letter of n, b, r, q. -/
theorem ConvertBookMoveToUci_spec (move : BookMove) (h : InRange move) :
    ConvertBookMoveToUci move
      = some (Files.getD move.fromFile "" ++ Rows.getD move.fromRow "" ++
          Files.getD move.toFile "" ++ Rows.getD move.toRow "" ++
          promotionLetter move.promotion) ∧
    ∃ s : String, ConvertBookMoveToUci move = some s ∧
      (s.length = 4 ↔ move.promotion = 0) ∧ (move.promotion ≠ 0 → s.length = 5) ∧
      ∃ f₁ r₁ f₂ r₂ : Char, f₁ ∈ "abcdefgh".toList ∧ r₁ ∈ "12345678".toList ∧
        f₂ ∈ "abcdefgh".toList ∧ r₂ ∈ "12345678".toList ∧
        ((move.promotion = 0 ∧ s.toList = [f₁, r₁, f₂, r₂]) ∨
         (move.promotion ≠ 0 ∧ ∃ p, p ∈ "nbrq".toList ∧ s.toList = [f₁, r₁, f₂, r₂, p])) := by
  refine ⟨ConvertBookMoveToUci_eq_encode move h, ?_⟩
  obtain ⟨f₁, r₁, f₂, r₂, hf₁, hr₁, hf₂, hr₂, hc | hc⟩ := ConvertBookMoveToUci_chars move h
  · obtain ⟨h0, hs, -⟩ := hc
    refine ⟨_, hs, ?_, ?_, f₁, r₁, f₂, r₂, hf₁, hr₁, hf₂, hr₂, Or.inl ⟨h0, rfl⟩⟩
    · simp [h0, String.length]
    · intro hne; exact absurd h0 hne
  · obtain ⟨h0, p, hp, hs, -⟩ := hc
    refine ⟨_, hs, ?_, ?_, f₁, r₁, f₂, r₂, hf₁, hr₁, hf₂, hr₂, Or.inr ⟨h0, p, hp, rfl⟩⟩
    · simp [h0, String.length]
    · intro _; simp [String.length]

theorem ConvertBookMoveToUci_spec_witness :
    InRange { toFile := 4, toRow := 7, fromFile := 4, fromRow := 6, promotion := 4 } ∧
    ConvertBookMoveToUci { toFile := 4, toRow := 7, fromFile := 4, fromRow := 6, promotion := 4 }
      = some (Files.getD 4 "" ++ Rows.getD 6 "" ++ Files.getD 4 "" ++ Rows.getD 7 "" ++
          promotionLetter 4) :=
  ⟨by decide,
   (ConvertBookMoveToUci_spec
     { toFile := 4, toRow := 7, fromFile := 4, fromRow := 6, promotion := 4 } (by decide)).1⟩

/-- C5: for a move value `m` (any 16-bit value included) whose bits 12-14 are at
most 4, decoding `m`
and applying `ConvertBookMoveToUci` gives the file letter of bits 6-8, the row
digit of bits 9-11, the file letter of bits 0-2, the row digit of bits 3-5 and
the promotion letter of bits 12-14 (none for 0); `0x031C` gives "e2e4" and
`0x4D3C` gives "e7e8q". -/
theorem decode_then_ConvertBookMoveToUci (m : Nat) (book_move : BookMove)
    (hp : m / 2 ^ 12 % 8 ≤ 4) :
    ConvertBookMoveToUci (decodeMove m book_move)
      = some (Files.getD (m / 2 ^ 6 % 8) "" ++ Rows.getD (m / 2 ^ 9 % 8) "" ++
          Files.getD (m / 2 ^ 0 % 8) "" ++ Rows.getD (m / 2 ^ 3 % 8) "" ++
          promotionLetter (m / 2 ^ 12 % 8)) ∧
    ConvertBookMoveToUci (decodeMove 0x031C book_move) = some "e2e4" ∧
    ConvertBookMoveToUci (decodeMove 0x4D3C book_move) = some "e7e8q" := by
  refine ⟨?_, ?_, ?_⟩
  · rw [decodeMove_eq_decode,
      ConvertBookMoveToUci_eq_encode _ ((InRange_decode_iff m).2 hp)]
    rfl
  · rw [decodeMove_eq_decode]; decide
  · rw [decodeMove_eq_decode]; decide

theorem decode_then_ConvertBookMoveToUci_witness :
    ConvertBookMoveToUci (decodeMove 0x4D3C {})
      = some (Files.getD (0x4D3C / 2 ^ 6 % 8) "" ++ Rows.getD (0x4D3C / 2 ^ 9 % 8) "" ++
          Files.getD (0x4D3C / 2 ^ 0 % 8) "" ++ Rows.getD (0x4D3C / 2 ^ 3 % 8) "" ++
          promotionLetter (0x4D3C / 2 ^ 12 % 8)) :=
  (decode_then_ConvertBookMoveToUci 0x4D3C {} (by decide)).1

/-- C6: on the store holding the records `recs`, `SearchBook K w` selects the
same records as `GetBookMoves K w` (`swap64 r.key = K` and `swap16 r.weight ≥ w`),
in store order, and returns for each the entry with move the decode of
`swap16 r.move`, weight `swap16 r.weight` and learn `swap32 r.learn`; every
returned entry has weight at least `w`. -/
theorem SearchBook_eq_filter_map (recs : List EntryStruct) (K w : Nat) :
    SearchBook (loaded recs) K w
      = some ((recs.filter fun r =>
            decide (endian_swap_u64 r.key = K) && decide (endian_swap_u16 r.weight ≥ w)).map
          fun r => { move := decode (endian_swap_u16 r.move),
                     weight := endian_swap_u16 r.weight,
                     learn := endian_swap_u32 r.learn }) ∧
    GetBookMoves (loaded recs) K w
      = some ((recs.filter fun r =>
            decide (endian_swap_u64 r.key = K) && decide (endian_swap_u16 r.weight ≥ w)).map
          fun r => decode (endian_swap_u16 r.move)) ∧
    ∃ es : List BookEntry, SearchBook (loaded recs) K w = some es ∧ ∀ e ∈ es, w ≤ e.weight := by
  refine ⟨SearchBook_loaded recs K w, GetBookMoves_loaded recs K w, _,
    SearchBook_loaded recs K w, ?_⟩
  intro e he
  obtain ⟨r, hr, rfl⟩ := List.mem_map.1 he
  have hm := (List.mem_filter.1 hr).2
  exact ((isMatch_iff K w r).1 hm).2

theorem SearchBook_eq_filter_map_witness :
    ∃ es : List BookEntry,
      SearchBook (loaded [⟨0x0807060504030201, 0x1C03, 0x0500, 7⟩]) 0x0102030405060708 5
        = some es ∧ ∀ e ∈ es, 5 ≤ e.weight :=
  (SearchBook_eq_filter_map [⟨0x0807060504030201, 0x1C03, 0x0500, 7⟩]
    0x0102030405060708 5).2.2

/-- C7, as amended: for every move value `m` the decoded move has `fromFile`,
`fromRow`, `toFile`, `toRow` in [0,7] and `promotion` in [0,7]; decoding has no
failure case; the decoded move satisfies the range invariant (promotion in
[0,4]) exactly when bits 12-14 of `m` are at most 4, and then
`ConvertBookMoveToUci` returns a notation for it. -/
theorem decodeMove_ranges (m : Nat) (book_move : BookMove) :
    (decodeMove m book_move).fromFile ≤ 7 ∧ (decodeMove m book_move).fromRow ≤ 7 ∧
    (decodeMove m book_move).toFile ≤ 7 ∧ (decodeMove m book_move).toRow ≤ 7 ∧
    (decodeMove m book_move).promotion ≤ 7 ∧
    (InRange (decodeMove m book_move) ↔ m / 2 ^ 12 % 8 ≤ 4) ∧
    (m / 2 ^ 12 % 8 ≤ 4 → ∃ s, ConvertBookMoveToUci (decodeMove m book_move) = some s) := by
  rw [decodeMove_eq_decode]
  obtain ⟨h1, h2, h3, h4, h5⟩ := decode_le_seven m
  refine ⟨h1, h2, h3, h4, h5, InRange_decode_iff m, ?_⟩
  intro hp
  exact ⟨_, ConvertBookMoveToUci_eq_encode _ ((InRange_decode_iff m).2 hp)⟩

theorem decodeMove_ranges_witness :
    ∃ s, ConvertBookMoveToUci (decodeMove 0x4D3C {}) = some s :=
  (decodeMove_ranges 0x4D3C {}).2.2.2.2.2.2 (by decide)

/-- C7 as stated fails: the 16-bit value `0x7000` decodes to promotion 7, outside
[0,4], and `ConvertBookMoveToUci` indexes past the literal on that move. -/
theorem decodeMove_promotion_exceeds_four :
    0x7000 < 2 ^ 16 ∧ (decodeMove 0x7000 {}).promotion = 7 ∧
    ¬ InRange (decodeMove 0x7000 {}) ∧
    ConvertBookMoveToUci (decodeMove 0x7000 {}) = none := by
  refine ⟨by decide, by decide, by decide, by decide⟩

/-- C8, as amended: for a file of `s ≥ 16` bytes `Load` sets the count to
`s / 16`, and when the bulk read delivers every requested record the store holds
exactly the records of the first `s / 16` consecutive 16-byte chunks, in file
order. A file assembled from `N ≥ 1` chunks of 16 bytes followed by fewer than 16
trailing bytes yields count `N` and, under the same condition on the read, the
records of those chunks only. -/
theorem Load_count_and_records (g : Globals) (bytes : List Nat) (delivered : Nat)
    (hs : 16 ≤ bytes.length) :
    (Load g (some bytes) delivered).1.num_entries = bytes.length / 16 ∧
    (bytes.length / 16 ≤ delivered →
      (Load g (some bytes) delivered).1
        = loaded ((List.range (bytes.length / 16)).map fun i =>
            EntryStruct.ofBytes ((bytes.drop (16 * i)).take 16))) ∧
    (∀ (chunks : List (List Nat)) (tail : List Nat),
      bytes = chunks.flatten ++ tail → (∀ c ∈ chunks, c.length = 16) → tail.length < 16 →
        (Load g (some bytes) delivered).1.num_entries = chunks.length ∧
        (chunks.length ≤ delivered →
          (Load g (some bytes) delivered).1 = loaded (chunks.map EntryStruct.ofBytes))) := by
  refine ⟨?_, ?_, ?_⟩
  · rw [Load_large g bytes delivered hs]
  · intro hd
    rw [Load_complete g bytes delivered hs hd]
  · intro chunks tail hb hc ht
    subst hb
    obtain ⟨hl, hr⟩ := records_of_flatten chunks tail hc ht
    refine ⟨?_, ?_⟩
    · rw [Load_large g _ delivered hs, hl]
    · intro hd
      rw [Load_complete g _ delivered hs (by omega), hr]

theorem Load_count_and_records_witness :
    (Load {} (some (serialize 1 2 3 4 ++ serialize 5 6 7 8 ++ [9, 9, 9])) 2).1.num_entries = 2 ∧
    (Load {} (some (serialize 1 2 3 4 ++ serialize 5 6 7 8 ++ [9, 9, 9])) 2).1
      = loaded ([serialize 1 2 3 4, serialize 5 6 7 8].map EntryStruct.ofBytes) :=
  have h := (Load_count_and_records {} (serialize 1 2 3 4 ++ serialize 5 6 7 8 ++ [9, 9, 9]) 2
    (by decide)).2.2 [serialize 1 2 3 4, serialize 5 6 7 8] [9, 9, 9] (by decide) (by decide)
    (by decide)
  ⟨h.1, h.2 (by decide)⟩

/-- C8 as stated fails: for a 32-byte file made of two records, of which the
bulk read delivers one, the count is 2 but the stored records are not the two
chunks of the file: the second cell holds no record. -/
theorem Load_records_not_the_chunks :
    (serialize 1 2 3 4 ++ serialize 5 6 7 8).length = 32 ∧
    (Load {} (some (serialize 1 2 3 4 ++ serialize 5 6 7 8)) 1).1.num_entries = 32 / 16 ∧
    (Load {} (some (serialize 1 2 3 4 ++ serialize 5 6 7 8)) 1).1
      ≠ loaded ([serialize 1 2 3 4, serialize 5 6 7 8].map EntryStruct.ofBytes) ∧
    (Load {} (some (serialize 1 2 3 4 ++ serialize 5 6 7 8)) 1).1.entries.read 1 = none ∧
    (loaded ([serialize 1 2 3 4, serialize 5 6 7 8].map EntryStruct.ofBytes)).entries.read 1
      = some (EntryStruct.ofBytes (serialize 5 6 7 8)) := by
  refine ⟨by decide, by decide, by decide, by decide, by decide⟩

/-- C9: for a file that opens and has 0 to 15 bytes, `Load` takes the
"No entries found" branch and leaves the globals as they were, so it stores no
record (from the initial state the count stays 0 and a lookup returns nothing);
for a file of 16 bytes or more it does not take that branch. -/
theorem Load_too_small (g : Globals) (bytes : List Nat) (delivered : Nat) :
    (bytes.length ≤ 15 →
      Load g (some bytes) delivered = (g, some "<Error> No entries found") ∧
      (Load {} (some bytes) delivered).1.num_entries = 0 ∧
      ∀ K w, GetBookMoves (Load {} (some bytes) delivered).1 K w = some []) ∧
    (16 ≤ bytes.length →
      (Load g (some bytes) delivered).2 ≠ some "<Error> No entries found" ∧
      (Load g (some bytes) delivered).2 = none ∧
      (Load g (some bytes) delivered).1.num_entries = bytes.length / 16) := by
  refine ⟨?_, ?_⟩
  · intro h
    have h' : bytes.length < 16 := by omega
    rw [Load_small g bytes delivered h', Load_small {} bytes delivered h']
    refine ⟨rfl, rfl, ?_⟩
    intro K w
    rfl
  · intro h
    rw [Load_large g bytes delivered h]
    simp

theorem Load_too_small_witness :
    Load (loaded [⟨1, 2, 3, 4⟩]) (some [1, 2, 3]) 0
        = (loaded [⟨1, 2, 3, 4⟩], some "<Error> No entries found") ∧
    (Load {} (some (serialize 1 2 3 4)) 1).2 = none :=
  ⟨((Load_too_small (loaded [⟨1, 2, 3, 4⟩]) [1, 2, 3] 0).1 (by decide)).1,
   ((Load_too_small {} (serialize 1 2 3 4) 1).2 (by decide)).2.1⟩

/-- C2: a 16-byte record that is the big-endian serialization
`key:u64 | move:u16 | weight:u16 | learn:u32` of `(K, m, w, l)`, read into an
`EntryStruct` on a little-endian host, gives back `K`, `m`, `w`, `l` under
`endian_swap_u64`, `endian_swap_u16`, `endian_swap_u16`, `endian_swap_u32`; so a
lookup for `K'` in the store holding that one record finds it exactly when
`K = K'`. -/
theorem serialize_read_swap_roundtrip (K m w l : Nat)
    (hK : K < 2 ^ 64) (hm : m < 2 ^ 16) (hw : w < 2 ^ 16) (hl : l < 2 ^ 32) :
    (serialize K m w l).length = 16 ∧
    endian_swap_u64 (EntryStruct.ofBytes (serialize K m w l)).key = K ∧
    endian_swap_u16 (EntryStruct.ofBytes (serialize K m w l)).move = m ∧
    endian_swap_u16 (EntryStruct.ofBytes (serialize K m w l)).weight = w ∧
    endian_swap_u32 (EntryStruct.ofBytes (serialize K m w l)).learn = l ∧
    ∀ K' : Nat,
      (GetBookMoves (Load {} (some (serialize K m w l)) 1).1 K' 0 = some [decode m] ↔ K = K') ∧
      (GetBookMoves (Load {} (some (serialize K m w l)) 1).1 K' 0 = some [] ↔ K ≠ K') := by
  have hlen : (serialize K m w l).length = 16 := by simp [serialize, beBytes_length]
  have hk := swap64_leValue_beBytes K hK
  have hmv := swap16_leValue_beBytes m hm
  have hwt := swap16_leValue_beBytes w hw
  have hln := swap32_leValue_beBytes l hl
  refine ⟨hlen, ?_, ?_, ?_, ?_, ?_⟩
  · rw [ofBytes_serialize]; exact hk
  · rw [ofBytes_serialize]; exact hmv
  · rw [ofBytes_serialize]; exact hwt
  · rw [ofBytes_serialize]; exact hln
  · intro K'
    have hload : (Load {} (some (serialize K m w l)) 1).1
        = loaded [EntryStruct.ofBytes (serialize K m w l)] := by
      have ht : List.take 16 (serialize K m w l) = serialize K m w l :=
        List.take_of_length_le (by omega)
      rw [Load_complete {} _ 1 (by omega) (by omega), hlen]
      simp [List.range_succ, ht]
    rw [hload, GetBookMoves_loaded, ofBytes_serialize]
    by_cases h : K = K'
    · subst h
      simp [isMatch, hk, hmv]
    · simp [isMatch, hk, hmv, h]

theorem serialize_read_swap_roundtrip_witness :
    endian_swap_u64 (EntryStruct.ofBytes
      (serialize 0x0102030405060708 0x031C 0x0010 0xAABBCCDD)).key = 0x0102030405060708 :=
  (serialize_read_swap_roundtrip 0x0102030405060708 0x031C 0x0010 0xAABBCCDD
    (by norm_num) (by norm_num) (by norm_num) (by norm_num)).2.1

/-! ## Random selection -/

theorem sample_go_zero {α : Type} (xs : List α) (g : Nat → Nat) : sample.go xs 0 g = [] := by
  cases xs <;> simp [sample.go]

theorem sample_go_one {α : Type} (xs : List α) :
    xs ≠ [] → ∀ g : Nat → Nat, ∃ x, x ∈ xs ∧ sample.go xs 1 g = [x] := by
  induction xs with
  | nil => intro h; exact absurd rfl h
  | cons x rest ih =>
    intro _ g
    by_cases hd : g 0 % (rest.length + 1) < 1
    · refine ⟨x, by simp, ?_⟩
      simp [sample.go, hd, sample_go_zero]
    · have hne : rest ≠ [] := by
        intro hr
        subst hr
        apply hd
        simp only [List.length_nil, Nat.zero_add, Nat.mod_one]
        exact Nat.zero_lt_one
      obtain ⟨y, hy, hs⟩ := ih hne (fun k => g (k + 1))
      refine ⟨y, by simp [hy], ?_⟩
      simp only [sample.go, hd, if_false]
      simpa using hs

theorem RandomBookMove_nonempty (book_moves : List BookMove) (g : Nat → Nat)
    (h : book_moves ≠ []) : ∃ m, m ∈ book_moves ∧ RandomBookMove book_moves g = some m := by
  obtain ⟨x, hx, hs⟩ := sample_go_one book_moves h g
  have hlen : 0 < book_moves.length := List.length_pos.2 h
  have hmin : min 1 book_moves.length = 1 := by omega
  refine ⟨x, hx, ?_⟩
  simp [RandomBookMove, sample, hmin, hs]

/-! ## Lookup loops on an arbitrary state -/

theorem SearchBook_loop_moves (entries : Buffer) (K w : Nat) :
    ∀ (n i : Nat) (book_move : BookMove) (book_entry : BookEntry) (acc : List BookEntry),
      (SearchBook.loop entries K w n i book_move book_entry acc).map
          (List.map fun e => e.move)
        = GetBookMoves.loop entries K w n i book_move (acc.map fun e => e.move) := by
  intro n
  induction n with
  | zero => intro i book_move book_entry acc; simp [SearchBook.loop, GetBookMoves.loop]
  | succ n ih =>
    intro i book_move book_entry acc
    rw [SearchBook.loop, GetBookMoves.loop]
    cases hr : entries.read i with
    | none => simp
    | some entry =>
      by_cases h : endian_swap_u64 entry.key = K ∧ endian_swap_u16 entry.weight ≥ w
      · simp only [h, and_self, if_true]
        rw [ih]
        simp
      · simp only [if_neg h]
        rw [ih]

theorem loops_zero (entries : Buffer) (K w i : Nat) (book_move : BookMove)
    (book_entry : BookEntry) :
    GetBookMoves.loop entries K w 0 i book_move [] = some [] ∧
    SearchBook.loop entries K w 0 i book_move book_entry [] = some [] := by
  simp [GetBookMoves.loop, SearchBook.loop]

/-! ## Byte-order routines: involution -/

theorem bytes_sum16 (x : Nat) (hx : x < 2 ^ 16) : x = byteAt x 0 + 256 * byteAt x 1 := by
  simp only [byteAt]
  norm_num
  omega

theorem bytes_sum32 (x : Nat) (hx : x < 2 ^ 32) :
    x = byteAt x 0 + 256 * byteAt x 1 + 256 ^ 2 * byteAt x 2 + 256 ^ 3 * byteAt x 3 := by
  simp only [byteAt]
  norm_num
  omega

theorem bytes_sum64 (x : Nat) (hx : x < 2 ^ 64) :
    x = byteAt x 0 + 256 * byteAt x 1 + 256 ^ 2 * byteAt x 2 + 256 ^ 3 * byteAt x 3
        + 256 ^ 4 * byteAt x 4 + 256 ^ 5 * byteAt x 5 + 256 ^ 6 * byteAt x 6
        + 256 ^ 7 * byteAt x 7 := by
  simp only [byteAt]
  norm_num
  omega

theorem swap16_swap16 (x : Nat) (hx : x < 2 ^ 16) :
    endian_swap_u16 (endian_swap_u16 x) = x := by
  have h0 := swap16_byteAt x 0 hx (by norm_num)
  have h1 := swap16_byteAt x 1 hx (by norm_num)
  simp only [Nat.sub_zero, Nat.reduceSub] at h0 h1
  rw [swap16_value _ (swap16_lt x), h0, h1]
  exact (bytes_sum16 x hx).symm

theorem swap32_swap32 (x : Nat) (hx : x < 2 ^ 32) :
    endian_swap_u32 (endian_swap_u32 x) = x := by
  have h0 := swap32_byteAt x 0 hx (by norm_num)
  have h1 := swap32_byteAt x 1 hx (by norm_num)
  have h2 := swap32_byteAt x 2 hx (by norm_num)
  have h3 := swap32_byteAt x 3 hx (by norm_num)
  simp only [Nat.sub_zero, Nat.reduceSub] at h0 h1 h2 h3
  rw [swap32_value _ (swap32_lt x), h0, h1, h2, h3]
  exact (bytes_sum32 x hx).symm

theorem swap64_swap64 (x : Nat) (hx : x < 2 ^ 64) :
    endian_swap_u64 (endian_swap_u64 x) = x := by
  have h0 := swap64_byteAt x 0 hx (by norm_num)
  have h1 := swap64_byteAt x 1 hx (by norm_num)
  have h2 := swap64_byteAt x 2 hx (by norm_num)
  have h3 := swap64_byteAt x 3 hx (by norm_num)
  have h4 := swap64_byteAt x 4 hx (by norm_num)
  have h5 := swap64_byteAt x 5 hx (by norm_num)
  have h6 := swap64_byteAt x 6 hx (by norm_num)
  have h7 := swap64_byteAt x 7 hx (by norm_num)
  simp only [Nat.sub_zero, Nat.reduceSub] at h0 h1 h2 h3 h4 h5 h6 h7
  rw [swap64_value _ (swap64_lt x), h0, h1, h2, h3, h4, h5, h6, h7]
  exact (bytes_sum64 x hx).symm

/-! ## Notation: injectivity -/

theorem Files_inj : ∀ i, i ≤ 7 → ∀ j, j ≤ 7 → Files[i]? = Files[j]? → i = j := by
  decide

theorem Rows_inj : ∀ i, i ≤ 7 → ∀ j, j ≤ 7 → Rows[i]? = Rows[j]? → i = j := by
  decide

theorem promotionLetter_inj :
    ∀ p, p ≤ 4 → ∀ q, q ≤ 4 → (promotionLetter p).data = (promotionLetter q).data → p = q := by
  decide

theorem encodeToNotation_inj (a b : BookMove) (ha : InRange a) (hb : InRange b)
    (h : encodeToNotation a = encodeToNotation b) : a = b := by
  obtain ⟨a1, a2, a3, a4, a5⟩ := ha
  obtain ⟨b1, b2, b3, b4, b5⟩ := hb
  obtain ⟨fa, -, efa⟩ := Files_char _ a1
  obtain ⟨ra, -, era⟩ := Rows_char _ a2
  obtain ⟨ta, -, eta⟩ := Files_char _ a3
  obtain ⟨sa, -, esa⟩ := Rows_char _ a4
  obtain ⟨fb, -, efb⟩ := Files_char _ b1
  obtain ⟨rb, -, erb⟩ := Rows_char _ b2
  obtain ⟨tb, -, etb⟩ := Files_char _ b3
  obtain ⟨sb, -, esb⟩ := Rows_char _ b4
  simp only [encodeToNotation, List.getD_eq_getElem?_getD, efa, era, eta, esa, efb, erb, etb, esb,
    Option.getD_some, String.ext_iff, String.data_append, List.singleton_append,
    List.cons_append, List.nil_append, List.cons.injEq] at h
  obtain ⟨h1, h2, h3, h4, h5⟩ := h
  have e1 : a.fromFile = b.fromFile := Files_inj _ a1 _ b1 (by rw [efa, efb, h1])
  have e2 : a.fromRow = b.fromRow := Rows_inj _ a2 _ b2 (by rw [era, erb, h2])
  have e3 : a.toFile = b.toFile := Files_inj _ a3 _ b3 (by rw [eta, etb, h3])
  have e4 : a.toRow = b.toRow := Rows_inj _ a4 _ b4 (by rw [esa, esb, h4])
  have e5 : a.promotion = b.promotion := promotionLetter_inj _ a5 _ b5 h5
  cases a
  cases b
  simp only [BookMove.mk.injEq]
  exact ⟨e3, e4, e1, e2, e5⟩

/-! ## Main results: selection, store life cycle, algebraic properties -/

/-- C11: for every non-empty candidate sequence and every value of the entropy
source, `RandomBookMove` returns a move that is an element of the sequence; on a
single-element sequence `[m]` it returns `m` whatever the entropy. -/
theorem RandomBookMove_in_candidates (book_moves : List BookMove) (g : Nat → Nat) :
    (book_moves ≠ [] → ∃ m, m ∈ book_moves ∧ RandomBookMove book_moves g = some m) ∧
    (∀ m : BookMove, RandomBookMove [m] g = some m) := by
  refine ⟨RandomBookMove_nonempty book_moves g, ?_⟩
  intro m
  obtain ⟨x, hx, hr⟩ := RandomBookMove_nonempty [m] g (by simp)
  rw [List.mem_singleton] at hx
  rw [hr, hx]

theorem RandomBookMove_in_candidates_witness :
    ∃ m, m ∈ [decode 0x031C, decode 0x4D3C, decode 0x0001] ∧
      RandomBookMove [decode 0x031C, decode 0x4D3C, decode 0x0001] (fun k => 5 + k) = some m :=
  (RandomBookMove_in_candidates [decode 0x031C, decode 0x4D3C, decode 0x0001]
    (fun k => 5 + k)).1 (by simp)

/-- C12, the code at the failing input: on the empty candidate sequence
`std::sample` copies nothing and `move[0]` indexes an empty vector, which is
undefined behaviour (`none`), not an explicit error result. -/
theorem RandomBookMove_empty (g : Nat → Nat) :
    sample ([] : List BookMove) 1 g = [] ∧ RandomBookMove [] g = none := by
  simp [RandomBookMove, sample, sample.go]

/-- C13: on the never-loaded state, and on any state whose count is 0 whatever
`entries` designates (no record is read), and on a loaded store in which no
record matches `(K, w)`, `GetBookMoves K w` and `SearchBook K w` return the empty
sequence. -/
theorem lookups_empty (K w : Nat) :
    GetBookMoves {} K w = some [] ∧ SearchBook {} K w = some [] ∧
    (∀ b : Buffer,
      GetBookMoves { num_entries := 0, entries := b } K w = some [] ∧
      SearchBook { num_entries := 0, entries := b } K w = some []) ∧
    (∀ recs : List EntryStruct,
      (∀ r ∈ recs, ¬ (endian_swap_u64 r.key = K ∧ endian_swap_u16 r.weight ≥ w)) →
        GetBookMoves (loaded recs) K w = some [] ∧ SearchBook (loaded recs) K w = some []) := by
  refine ⟨(loops_zero _ K w 0 {} {}).1, (loops_zero _ K w 0 {} {}).2, ?_, ?_⟩
  · intro b
    exact ⟨(loops_zero b K w 0 {} {}).1, (loops_zero b K w 0 {} {}).2⟩
  · intro recs hno
    have hf : recs.filter (isMatch K w) = [] := by
      rw [List.filter_eq_nil_iff]
      intro r hr hm
      exact hno r hr ((isMatch_iff K w r).1 hm)
    rw [GetBookMoves_loaded, SearchBook_loaded, hf]
    exact ⟨rfl, rfl⟩

theorem lookups_empty_witness :
    GetBookMoves (loaded [⟨0x0807060504030201, 0x1C03, 0x0500, 0⟩]) 0x0102030405060708 6
      = some [] ∧
    SearchBook (loaded [⟨0x0807060504030201, 0x1C03, 0x0500, 0⟩]) 0x0102030405060708 6
      = some [] :=
  (lookups_empty 0x0102030405060708 6).2.2.2 [⟨0x0807060504030201, 0x1C03, 0x0500, 0⟩]
    (by decide)

/-- C14, the code at the failing input: after `Clear` on a store holding one
record the count is still 1 and `entries` designates freed storage, so the next
`GetBookMoves` or `SearchBook` reads a released record (undefined behaviour) and
a second `Clear` frees the block again. -/
theorem Clear_keeps_count :
    Clear (loaded [⟨0x0807060504030201, 0x1C03, 0x0500, 0⟩])
      = some { num_entries := 1, entries := Buffer.freed } ∧
    GetBookMoves { num_entries := 1, entries := Buffer.freed } 0x0102030405060708 0 = none ∧
    SearchBook { num_entries := 1, entries := Buffer.freed } 0x0102030405060708 0 = none ∧
    Clear { num_entries := 1, entries := Buffer.freed } = none := by
  refine ⟨rfl, rfl, rfl, rfl⟩

/-- C15, as amended: a failing `Load` (path cannot be opened, or file shorter
than 16 bytes) leaves the store as it was before the call; from the never-loaded
state the store after the call is empty: the count is 0 and the lookups return
the empty sequence. -/
theorem Load_failure_keeps_state (g : Globals) (bytes : List Nat) (delivered : Nat) :
    (Load g none delivered).1 = g ∧
    (bytes.length < 16 → (Load g (some bytes) delivered).1 = g) ∧
    ((Load {} none delivered).1.num_entries = 0 ∧
      ∀ K w, GetBookMoves (Load {} none delivered).1 K w = some [] ∧
        SearchBook (Load {} none delivered).1 K w = some []) ∧
    (bytes.length < 16 →
      (Load {} (some bytes) delivered).1.num_entries = 0 ∧
      ∀ K w, GetBookMoves (Load {} (some bytes) delivered).1 K w = some [] ∧
        SearchBook (Load {} (some bytes) delivered).1 K w = some []) := by
  refine ⟨rfl, ?_, ⟨rfl, fun K w => ⟨rfl, rfl⟩⟩, ?_⟩
  · intro h
    rw [Load_small g bytes delivered h]
  · intro h
    rw [Load_small {} bytes delivered h]
    exact ⟨rfl, fun K w => ⟨rfl, rfl⟩⟩

theorem Load_failure_keeps_state_witness :
    (Load (loaded [⟨0x0807060504030201, 0x1C03, 0x0500, 0⟩]) (some [1, 2, 3]) 0).1
      = loaded [⟨0x0807060504030201, 0x1C03, 0x0500, 0⟩] :=
  (Load_failure_keeps_state (loaded [⟨0x0807060504030201, 0x1C03, 0x0500, 0⟩]) [1, 2, 3] 0).2.1
    (by decide)

/-- C15 as stated fails: after a successful load of one record, a `Load` of a
path that cannot be opened, and a `Load` of a 3-byte file, both leave the count
at 1 and the lookup still returns that record's move. -/
theorem Load_failure_not_empty :
    (Load (loaded [⟨0x0807060504030201, 0x1C03, 0x0500, 0⟩]) none 0).1.num_entries = 1 ∧
    GetBookMoves (Load (loaded [⟨0x0807060504030201, 0x1C03, 0x0500, 0⟩]) none 0).1
      0x0102030405060708 0 = some [decode 0x031C] ∧
    (Load (loaded [⟨0x0807060504030201, 0x1C03, 0x0500, 0⟩]) (some [1, 2, 3]) 0).1.num_entries
      = 1 ∧
    GetBookMoves (Load (loaded [⟨0x0807060504030201, 0x1C03, 0x0500, 0⟩]) (some [1, 2, 3]) 0).1
      0x0102030405060708 0 = some [decode 0x031C] := by
  refine ⟨by decide, by decide, by decide, by decide⟩

/-- C16: in every state, projecting the entries of `SearchBook K w` onto their
move field gives `GetBookMoves K w` (both undefined together, or the same moves
in the same order); on a loaded store both return lists of the same length. -/
theorem SearchBook_moves_eq_GetBookMoves (g : Globals) (K w : Nat) :
    (SearchBook g K w).map (List.map fun e => e.move) = GetBookMoves g K w ∧
    ∀ recs : List EntryStruct, ∃ (es : List BookEntry) (ms : List BookMove),
      SearchBook (loaded recs) K w = some es ∧ GetBookMoves (loaded recs) K w = some ms ∧
      es.map (fun e => e.move) = ms ∧ es.length = ms.length := by
  have hgen : ∀ g : Globals,
      (SearchBook g K w).map (List.map fun e => e.move) = GetBookMoves g K w := by
    intro g
    have h := SearchBook_loop_moves g.entries K w g.num_entries 0 {} {} []
    simpa [SearchBook, GetBookMoves] using h
  refine ⟨hgen g, ?_⟩
  intro recs
  have h := hgen (loaded recs)
  rw [SearchBook_loaded] at h
  refine ⟨_, _, SearchBook_loaded recs K w, h.symm, rfl, ?_⟩
  simp

/-- C17, the code at the failing input: for a 32-byte file of which the bulk
read delivers one record, `Load` reports no error and leaves the count at 2,
above the one record read; the second cell was never written, so a lookup reads
an unwritten record. -/
theorem Load_short_read_unchecked :
    (Load {} (some (serialize 1 2 3 4 ++ serialize 5 6 7 8)) 1).2 = none ∧
    (Load {} (some (serialize 1 2 3 4 ++ serialize 5 6 7 8)) 1).1.num_entries = 2 ∧
    (Load {} (some (serialize 1 2 3 4 ++ serialize 5 6 7 8)) 1).1.entries
      = Buffer.block [some (EntryStruct.ofBytes (serialize 1 2 3 4)), none] ∧
    GetBookMoves (Load {} (some (serialize 1 2 3 4 ++ serialize 5 6 7 8)) 1).1 1 0 = none := by
  refine ⟨by decide, by decide, by decide, by decide⟩

/-- C18: each byte swap is an involution on its width, hence injective there and
onto the values of that width; two distinct 64-bit stored keys never normalize to
the same query key. -/
theorem endian_swap_involutive (x y : Nat) :
    (x < 2 ^ 16 → endian_swap_u16 (endian_swap_u16 x) = x) ∧
    (x < 2 ^ 32 → endian_swap_u32 (endian_swap_u32 x) = x) ∧
    (x < 2 ^ 64 → endian_swap_u64 (endian_swap_u64 x) = x) ∧
    (x < 2 ^ 16 → y < 2 ^ 16 → endian_swap_u16 x = endian_swap_u16 y → x = y) ∧
    (x < 2 ^ 32 → y < 2 ^ 32 → endian_swap_u32 x = endian_swap_u32 y → x = y) ∧
    (x < 2 ^ 64 → y < 2 ^ 64 → x ≠ y → endian_swap_u64 x ≠ endian_swap_u64 y) ∧
    (x < 2 ^ 64 → ∃ z, z < 2 ^ 64 ∧ endian_swap_u64 z = x) := by
  refine ⟨swap16_swap16 x, swap32_swap32 x, swap64_swap64 x, ?_, ?_, ?_, ?_⟩
  · intro hx hy h
    rw [← swap16_swap16 x hx, ← swap16_swap16 y hy, h]
  · intro hx hy h
    rw [← swap32_swap32 x hx, ← swap32_swap32 y hy, h]
  · intro hx hy hne h
    apply hne
    rw [← swap64_swap64 x hx, ← swap64_swap64 y hy, h]
  · intro hx
    exact ⟨endian_swap_u64 x, swap64_lt x, swap64_swap64 x hx⟩

theorem endian_swap_involutive_witness :
    endian_swap_u16 (endian_swap_u16 0x1234) = 0x1234 ∧
    endian_swap_u32 (endian_swap_u32 0x12345678) = 0x12345678 ∧
    endian_swap_u64 (endian_swap_u64 0x0102030405060708) = 0x0102030405060708 ∧
    endian_swap_u64 0x0102030405060708 ≠ endian_swap_u64 0x0102030405060709 :=
  ⟨(endian_swap_involutive 0x1234 0).1 (by norm_num),
   (endian_swap_involutive 0x12345678 0).2.1 (by norm_num),
   (endian_swap_involutive 0x0102030405060708 0).2.2.1 (by norm_num),
   (endian_swap_involutive 0x0102030405060708 0x0102030405060709).2.2.2.2.2.1
     (by norm_num) (by norm_num) (by norm_num)⟩

/-- C19: for thresholds `w₁ ≤ w₂` the result of `GetBookMoves K w₂` is a sublist
of the result of `GetBookMoves K w₁`, and likewise for `SearchBook`; with
threshold 0 `GetBookMoves K 0` returns one move for every record whose normalized
key is `K`. -/
theorem weight_filter_monotone (recs : List EntryStruct) (K w₁ w₂ : Nat) (h : w₁ ≤ w₂) :
    (∃ l₁ l₂ : List BookMove, GetBookMoves (loaded recs) K w₁ = some l₁ ∧
      GetBookMoves (loaded recs) K w₂ = some l₂ ∧ l₂.Sublist l₁) ∧
    (∃ l₁ l₂ : List BookEntry, SearchBook (loaded recs) K w₁ = some l₁ ∧
      SearchBook (loaded recs) K w₂ = some l₂ ∧ l₂.Sublist l₁) ∧
    GetBookMoves (loaded recs) K 0
      = some ((recs.filter fun r => decide (endian_swap_u64 r.key = K)).map
          fun r => decode (endian_swap_u16 r.move)) := by
  have hsub : (recs.filter (isMatch K w₂)).Sublist (recs.filter (isMatch K w₁)) := by
    apply List.monotone_filter_right
    intro r hr
    rw [isMatch_iff] at hr ⊢
    exact ⟨hr.1, le_trans h hr.2⟩
  refine ⟨⟨_, _, GetBookMoves_loaded recs K w₁, GetBookMoves_loaded recs K w₂, hsub.map _⟩,
    ⟨_, _, SearchBook_loaded recs K w₁, SearchBook_loaded recs K w₂, hsub.map _⟩, ?_⟩
  rw [GetBookMoves_loaded]
  have hp : isMatch K 0 = fun r => decide (endian_swap_u64 r.key = K) := by
    funext r
    simp [isMatch]
  rw [hp]

theorem weight_filter_monotone_witness :
    ∃ l₁ l₂ : List BookMove,
      GetBookMoves (loaded [⟨0x0807060504030201, 0x1C03, 0x0500, 0⟩]) 0x0102030405060708 3
        = some l₁ ∧
      GetBookMoves (loaded [⟨0x0807060504030201, 0x1C03, 0x0500, 0⟩]) 0x0102030405060708 6
        = some l₂ ∧ l₂.Sublist l₁ :=
  (weight_filter_monotone [⟨0x0807060504030201, 0x1C03, 0x0500, 0⟩] 0x0102030405060708 3 6
    (by decide)).1

/-- C20: `ConvertBookMoveToUci` is injective on moves with file and row fields in
[0,7] and promotion in [0,4]: equal notations come from equal moves, all five
fields included. -/
theorem ConvertBookMoveToUci_injective (a b : BookMove) (ha : InRange a) (hb : InRange b)
    (h : ConvertBookMoveToUci a = ConvertBookMoveToUci b) :
    a = b ∧ a.toFile = b.toFile ∧ a.toRow = b.toRow ∧ a.fromFile = b.fromFile ∧
      a.fromRow = b.fromRow ∧ a.promotion = b.promotion := by
  rw [ConvertBookMoveToUci_eq_encode a ha, ConvertBookMoveToUci_eq_encode b hb] at h
  have hab : a = b := encodeToNotation_inj a b ha hb (Option.some.inj h)
  subst hab
  exact ⟨rfl, rfl, rfl, rfl, rfl, rfl⟩

theorem ConvertBookMoveToUci_injective_witness :
    decode 0x4D3C = { toFile := 4, toRow := 7, fromFile := 4, fromRow := 6, promotion := 4 } :=
  (ConvertBookMoveToUci_injective (decode 0x4D3C)
    { toFile := 4, toRow := 7, fromFile := 4, fromRow := 6, promotion := 4 }
    (by decide) (by decide) (by decide)).1

end Reader
